import Mathlib

/-!
Shallow embedding of the after_market scraper (src/src/main.rs) and proofs
about its extraction logic.

Modelling conventions:
- A rendered DOM node (headless_chrome protocol Node) is `Node`: tag name,
  node value, attribute map, ordered children.  The attribute map
  (Option of a HashMap in Rust) is modelled as an association list with
  unique keys; the Rust value None behaves exactly like the empty map at
  every use site (attributes.unwrap_or_default), so it is modelled as [].
  The children field (Option of Vec in Rust) is modelled as a plain
  NodeList: the only place the None/Some distinction is observable is the
  unwrap on the TBODY children at main.rs line 63, a panic point on the
  collaborator boundary that no claim touches.
- Strings are treated as sequences of characters; the one place where the
  byte-level view of Rust String is observable, the remove call at byte
  index len - 1 in parse_percentage_str, is modelled through the UTF-8
  size of the final character (the index is a character boundary exactly
  when that size is one byte).  Rust f64 values produced by parsing
  decimal literals are modelled as exact rationals.
- A Rust panic (process abort) is `Outcome.abort msg`; a recoverable error
  propagated with the question-mark operator is `Outcome.err`; success is
  `Outcome.ok`.
- The lazily initialised global timestamp NOW (main.rs lines 30-32),
  computed once per process, is threaded through as the parameter `now`.
- Browser driving (wait_for_element, get_description) and the database
  sink are external collaborators: the extractor functions receive the
  already-materialised subtree they operate on.
-/

namespace AfterMarket

/-- Timestamp instants; only equality of instants matters to the claims. -/
abbrev DateTime := Nat

mutual

/-- One node of the rendered DOM tree (headless_chrome protocol Node). -/
inductive Node : Type where
  | mk (node_name : String) (node_value : String)
       (attributes : List (String × String))
       (children : NodeList) : Node

/-- Ordered child list of a Node. -/
inductive NodeList : Type where
  | nil : NodeList
  | cons (head : Node) (tail : NodeList) : NodeList

end

def Node.node_name : Node → String
  | .mk n _ _ _ => n

def Node.node_value : Node → String
  | .mk _ v _ _ => v

def Node.attributes : Node → List (String × String)
  | .mk _ _ a _ => a

def Node.children : Node → NodeList
  | .mk _ _ _ c => c

def NodeList.ofList : List Node → NodeList
  | [] => .nil
  | n :: ns => .cons n (NodeList.ofList ns)

def NodeList.toList : NodeList → List Node
  | .nil => []
  | .cons n ns => n :: NodeList.toList ns

mutual

/-- Depth-first pre-order search for the first node satisfying p, the
subtree root included (headless_chrome Node::find, used by main.rs). -/
def Node.find (p : Node → Bool) : Node → Option Node
  | .mk nm nv a cs =>
    if p (.mk nm nv a cs) then some (.mk nm nv a cs)
    else NodeList.find p cs

def NodeList.find (p : Node → Bool) : NodeList → Option Node
  | .nil => none
  | .cons c cs =>
    match Node.find p c with
    | some r => some r
    | none => NodeList.find p cs

end

mutual

/-- Whether some node of the subtree (root included) satisfies p. -/
def Node.anyNode (p : Node → Bool) : Node → Bool
  | .mk nm nv a cs => p (.mk nm nv a cs) || NodeList.anyNode p cs

def NodeList.anyNode (p : Node → Bool) : NodeList → Bool
  | .nil => false
  | .cons c cs => Node.anyNode p c || NodeList.anyNode p cs

end

/-- Association-list lookup, modelling HashMap get over the unique-key
attribute map. -/
def lookupAttr : List (String × String) → String → Option String
  | [], _ => none
  | (k, val) :: rest, key => if k == key then some val else lookupAttr rest key

/-- Rust ParseFloatError: f64 from_str has a single opaque error value. -/
inductive ParseFloatError : Type where
  | invalid
deriving DecidableEq, Repr

/-- Result of running a fallible piece of the scraper: ok is a normal
return, err is a recoverable error propagated with the question-mark
operator, abort is a Rust panic terminating the process. -/
inductive Outcome (α : Type) : Type where
  | ok (a : α)
  | err (e : ParseFloatError)
  | abort (msg : String)
deriving DecidableEq, Repr

def Outcome.bind {α β : Type} : Outcome α → (α → Outcome β) → Outcome β
  | .ok a, f => f a
  | .err e, _ => .err e
  | .abort m, _ => .abort m

/-- AfterMarketPriceData (main.rs lines 22-26); the f64 percentage is
modelled as an exact rational. -/
structure AfterMarketPriceData where
  symbol : String
  percentage : ℚ
  date : DateTime
deriving DecidableEq, Repr

/-- Numeric value of a digit string (most significant first). -/
def digitsToNat (cs : List Char) : Nat :=
  cs.foldl (fun a c => 10 * a + (c.toNat - 48)) 0

/-- The unsigned part of Rust f64 from_str on decimal literals: digit
string with at most one dot and at least one digit.  The exponent, inf
and NaN forms of the Rust grammar are not modelled; no input reachable
from the claims uses them. -/
def parseUnsigned (cs : List Char) : Option ℚ :=
  let intPart := cs.takeWhile Char.isDigit
  let rest := cs.dropWhile Char.isDigit
  match rest with
  | [] => if intPart.isEmpty then none else some (digitsToNat intPart : ℚ)
  | '.' :: frac =>
    if frac.all Char.isDigit && !(intPart.isEmpty && frac.isEmpty) then
      some ((digitsToNat intPart : ℚ) + (digitsToNat frac : ℚ) / (10 : ℚ) ^ frac.length)
    else none
  | _ => none

/-- Sign handling of Rust f64 from_str: an optional single leading plus
or minus sign; returns the sign factor and the remaining characters. -/
def signOf (cs : List Char) : ℚ × List Char :=
  match cs with
  | [] => (1, [])
  | c :: r => if c = '+' then (1, r) else if c = '-' then (-1, r) else (1, c :: r)

/-- Rust str::parse::<f64> on the decimal-literal fragment of its
grammar, as an exact rational. -/
def rustParseF64 (cs : List Char) : Option ℚ :=
  let sr := signOf cs
  (parseUnsigned sr.2).map (fun q => sr.1 * q)

/-- parse_percentage_str (main.rs lines 168-171): String::remove at byte
index len - 1, then the remainder is parsed as an f64.  On the empty
string the index computation underflows, a panic.  len is the byte
length, so the index len - 1 is a character boundary exactly when the
final character occupies one byte: then the final character is removed;
when the final character is wider than one byte, String::remove panics
on a non-boundary byte index. -/
def parse_percentage_str (price_change : String) : Outcome ℚ :=
  match price_change.toList.getLast? with
  | none => .abort "attempt to subtract with overflow"
  | some l =>
    if l.utf8Size = 1 then
      match rustParseF64 price_change.toList.dropLast with
      | some q => .ok q
      | none => .err ParseFloatError.invalid
    else .abort "byte index is not a char boundary"

/-- get_node_with_class_as_option (main.rs lines 159-165): first node of
the subtree whose class attribute equals s verbatim; an absent attribute
map behaves as the empty map. -/
def get_node_with_class_as_option (node : Node) (s : String) : Option Node :=
  node.find (fun n => lookupAttr n.attributes "class" == some s)

/-- get_node_with_class (main.rs lines 150-155): same lookup but a
missing node is a panic. -/
def get_node_with_class (node : Node) (s : String) : Outcome Node :=
  match get_node_with_class_as_option node s with
  | some n => .ok n
  | none => .abort ("could not find " ++ s)

/-- get_node_with_name (main.rs lines 143-146): first node of the
subtree whose tag name equals s; a missing node is a panic. -/
def get_node_with_name (node : Node) (s : String) : Outcome Node :=
  match node.find (fun n => n.node_name == s) with
  | some n => .ok n
  | none => .abort ("could not find " ++ s ++ " tag")

/-- Body of the row loop of get_after_market_ticker_data (main.rs lines
75-101) for one non-header row: ticker symbol from the text of the
wsod_firstCol column, percentage from the text of the negChangePct
column when present, otherwise from the posChangePct column (a panic if
neither exists), parsed by parse_percentage_str. -/
def extractRow (row : Node) (now : DateTime) : Outcome AfterMarketPriceData :=
  Outcome.bind (get_node_with_class row "wsod_firstCol") (fun first_column =>
  Outcome.bind (get_node_with_name first_column "#text") (fun tickerNode =>
  Outcome.bind
    (match get_node_with_class_as_option row "negChangePct" with
     | some pct => Outcome.ok pct
     | none =>
       match get_node_with_class_as_option row "posChangePct" with
       | some c => Outcome.ok c
       | none => Outcome.abort "could not find third_column") (fun third_column =>
  Outcome.bind (get_node_with_name third_column "#text") (fun pctNode =>
  Outcome.bind (parse_percentage_str pctNode.node_value) (fun price_perc_change =>
  Outcome.ok ⟨tickerNode.node_value, price_perc_change, now⟩)))))

/-- The row loop of get_after_market_ticker_data (main.rs lines 68-104):
a row containing a node whose value is the header caption is skipped;
every other row has one record extracted and pushed onto v. -/
def processGainerRows (v : List AfterMarketPriceData) (rows : List Node)
    (now : DateTime) : Outcome (List AfterMarketPriceData) :=
  match rows with
  | [] => .ok v
  | row :: rest =>
    if (Node.find (fun n => n.node_value == "Gainers & Losers") row).isSome then
      processGainerRows v rest now
    else
      Outcome.bind (extractRow row now) (fun price_data =>
        processGainerRows (v ++ [price_data]) rest now)

/-- get_after_market_ticker_data (main.rs lines 54-107), starting from
the already rendered subtree of div with id wsod_marketMoversContainer:
locate the TBODY, then run the row loop over its children. -/
def get_after_market_ticker_data (v : List AfterMarketPriceData) (node : Node)
    (now : DateTime) : Outcome (List AfterMarketPriceData) :=
  Outcome.bind (get_node_with_name node "TBODY") (fun table =>
    processGainerRows v (NodeList.toList table.children) now)

/-- get_standard_and_poors_ticker_data (main.rs lines 109-139), starting
from the already rendered subtree of div with id premkContent1: locate
the compound-classed quote row, then the bold right-aligned cell, then
the first descendant whose value contains a percent character (an unwrap
panic if none), parse it, and push one record with symbol S&P. -/
def get_standard_and_poors_ticker_data (v : List AfterMarketPriceData)
    (node : Node) (now : DateTime) : Outcome (List AfterMarketPriceData) :=
  Outcome.bind (get_node_with_class node "wsod_futureQuote wsod_futureQuoteFirst") (fun sp_row =>
  Outcome.bind (get_node_with_class sp_row "wsod_bold wsod_aRight") (fun sp_price_changes =>
  match sp_price_changes.find (fun n => n.node_value.toList.contains '%') with
  | none => .abort "called Option unwrap on a None value"
  | some n =>
    Outcome.bind (parse_percentage_str n.node_value) (fun sp_perc_change =>
    .ok (v ++ [⟨"S&P", sp_perc_change, now⟩]))))

/-- scrape_cnn_after_market_datasource (main.rs lines 39-52) restricted
to its extraction core: starting from the empty vector, gather the
market movers, then append the S&P record.  Browser setup and the
database insert are collaborator calls outside the model; the global
NOW timestamp, initialised once per run, is the parameter now. -/
def scrape_cnn_after_market_datasource (moversNode spNode : Node)
    (now : DateTime) : Outcome (List AfterMarketPriceData) :=
  Outcome.bind (get_after_market_ticker_data [] moversNode now)
    (fun after_market_data =>
      get_standard_and_poors_ticker_data after_market_data spNode now)

/-- A text node: tag name #text carrying the given value. -/
def textNode (s : String) : Node := .mk "#text" s [] .nil

/-- The header row of the synthetic Gainers and Losers table of the
spec: a row containing the caption text. -/
def headerRow : Node :=
  .mk "TR" "" [] (NodeList.ofList
    [.mk "TD" "" [] (NodeList.ofList [textNode "Gainers & Losers"])])

/-- A gainer row: first column classed wsod_firstCol with the ticker
text, change column classed posChangePct with the percentage text. -/
def gainerRow (sym pct : String) : Node :=
  .mk "TR" "" [] (NodeList.ofList
    [.mk "TD" "" [("class", "wsod_firstCol")] (NodeList.ofList [textNode sym]),
     .mk "TD" "" [("class", "posChangePct")] (NodeList.ofList [textNode pct])])

/-- A loser row: like gainerRow but the change column is classed
negChangePct. -/
def loserRow (sym pct : String) : Node :=
  .mk "TR" "" [] (NodeList.ofList
    [.mk "TD" "" [("class", "wsod_firstCol")] (NodeList.ofList [textNode sym]),
     .mk "TD" "" [("class", "negChangePct")] (NodeList.ofList [textNode pct])])

/-- The synthetic table body of the spec test: header, two gainers, one
loser, one further gainer, wrapped in the container div the extractor
receives. -/
def syntheticContainer : Node :=
  .mk "DIV" "" [] (NodeList.ofList
    [.mk "TBODY" "" [] (NodeList.ofList
      [headerRow,
       gainerRow "AAPL" "+1.23%",
       gainerRow "MSFT" "+0.50%",
       loserRow "TSLA" "-2.00%",
       gainerRow "GOOG" "+3.00%"])])

/-- The S&P fragment of the C7 scenario: the compound-classed quote row
contains the bold right-aligned cell, whose first descendant text
containing a percent sign is -0.71 percent; that text sits under an
unrelated class and after a percent-free sibling, so only the free-text
search can find it. -/
def spFragment : Node :=
  .mk "DIV" "" [] (NodeList.ofList
    [.mk "DIV" "" [("class", "wsod_futureQuote wsod_futureQuoteFirst")]
      (NodeList.ofList
        [.mk "DIV" "" [] (NodeList.ofList [textNode "S&P 500"]),
         .mk "TD" "" [("class", "wsod_bold wsod_aRight")]
           (NodeList.ofList
             [textNode "3,001.20",
              .mk "SPAN" "" [("class", "unrelatedClass")]
                (NodeList.ofList [textNode "-0.71%"])])])])

/-- A non-header row with no wsod_firstCol column anywhere. -/
def rowMissingFirstCol : Node :=
  .mk "TR" "" [] (NodeList.ofList
    [.mk "TD" "" [("class", "otherCol")] (NodeList.ofList [textNode "XYZ"])])

/-- A container whose only data row lacks the wsod_firstCol column. -/
def containerMissingFirstCol : Node :=
  .mk "DIV" "" [] (NodeList.ofList
    [.mk "TBODY" "" [] (NodeList.ofList [rowMissingFirstCol])])

/-- A non-header row whose wsod_firstCol column has no text node. -/
def rowFirstColNoText : Node :=
  .mk "TR" "" [] (NodeList.ofList
    [.mk "TD" "" [("class", "wsod_firstCol")] .nil])

theorem Outcome.bind_eq_ok {α β : Type} {x : Outcome α} {f : α → Outcome β}
    {b : β} : Outcome.bind x f = .ok b ↔ ∃ a, x = .ok a ∧ f a = .ok b := by
  cases x <;> simp [Outcome.bind]

mutual

theorem Node.find_isSome_eq_anyNode (p : Node → Bool) :
    ∀ n : Node, (Node.find p n).isSome = Node.anyNode p n
  | .mk nm nv a cs => by
    have ih := NodeList.findList_isSome_eq_anyNodeList p cs
    by_cases hp : p (.mk nm nv a cs) <;>
      simp [Node.find, Node.anyNode, hp, ih]

theorem NodeList.findList_isSome_eq_anyNodeList (p : Node → Bool) :
    ∀ ns : NodeList, (NodeList.find p ns).isSome = NodeList.anyNode p ns
  | .nil => by simp [NodeList.find, NodeList.anyNode]
  | .cons c cs => by
    have ihc := Node.find_isSome_eq_anyNode p c
    have ihcs := NodeList.findList_isSome_eq_anyNodeList p cs
    cases hc : Node.find p c with
    | none =>
      rw [hc] at ihc
      simp [NodeList.find, NodeList.anyNode, hc, ← ihc, ihcs]
    | some r =>
      rw [hc] at ihc
      simp [NodeList.find, NodeList.anyNode, hc, ← ihc]

end

mutual

theorem Node.anyNode_mono (p q : Node → Bool)
    (hpq : ∀ m, p m = true → q m = true) :
    ∀ n : Node, Node.anyNode p n = true → Node.anyNode q n = true
  | .mk nm nv a cs => by
    have ih := NodeList.anyNodeList_mono p q hpq cs
    simp only [Node.anyNode, Bool.or_eq_true]
    rintro (h | h)
    · exact Or.inl (hpq _ h)
    · exact Or.inr (ih h)

theorem NodeList.anyNodeList_mono (p q : Node → Bool)
    (hpq : ∀ m, p m = true → q m = true) :
    ∀ ns : NodeList, NodeList.anyNode p ns = true → NodeList.anyNode q ns = true
  | .nil => by simp [NodeList.anyNode]
  | .cons c cs => by
    have ihc := Node.anyNode_mono p q hpq c
    have ihcs := NodeList.anyNodeList_mono p q hpq cs
    simp only [NodeList.anyNode, Bool.or_eq_true]
    rintro (h | h)
    · exact Or.inl (ihc h)
    · exact Or.inr (ihcs h)

end

theorem extractRow_date {row : Node} {now : DateTime}
    {rec : AfterMarketPriceData} (h : extractRow row now = .ok rec) :
    rec.date = now := by
  unfold extractRow at h
  rw [Outcome.bind_eq_ok] at h; obtain ⟨fc, hfc, h⟩ := h
  rw [Outcome.bind_eq_ok] at h; obtain ⟨tn, htn, h⟩ := h
  rw [Outcome.bind_eq_ok] at h; obtain ⟨tc, htc, h⟩ := h
  rw [Outcome.bind_eq_ok] at h; obtain ⟨pn, hpn, h⟩ := h
  rw [Outcome.bind_eq_ok] at h; obtain ⟨q, hq, h⟩ := h
  simp only [Outcome.ok.injEq] at h
  rw [← h]

theorem processGainerRows_appendOnly :
    ∀ (rows : List Node) (v : List AfterMarketPriceData) (now : DateTime)
      (w : List AfterMarketPriceData),
      processGainerRows v rows now = .ok w → ∃ u, w = v ++ u := by
  intro rows
  induction rows with
  | nil =>
    intro v now w h
    simp only [processGainerRows, Outcome.ok.injEq] at h
    exact ⟨[], by simp [← h]⟩
  | cons row rest ih =>
    intro v now w h
    simp only [processGainerRows] at h
    by_cases hh :
        (Node.find (fun n => n.node_value == "Gainers & Losers") row).isSome
    · rw [if_pos hh] at h
      exact ih v now w h
    · rw [if_neg hh] at h
      rw [Outcome.bind_eq_ok] at h
      obtain ⟨rec, hrec, h⟩ := h
      obtain ⟨u, hu⟩ := ih (v ++ [rec]) now w h
      exact ⟨rec :: u, by simp [hu]⟩

theorem processGainerRows_dates :
    ∀ (rows : List Node) (v : List AfterMarketPriceData) (now : DateTime)
      (w : List AfterMarketPriceData),
      processGainerRows v rows now = .ok w →
      ∀ r ∈ w, r ∈ v ∨ r.date = now := by
  intro rows
  induction rows with
  | nil =>
    intro v now w h r hr
    simp only [processGainerRows, Outcome.ok.injEq] at h
    exact Or.inl (h ▸ hr)
  | cons row rest ih =>
    intro v now w h r hr
    simp only [processGainerRows] at h
    by_cases hh :
        (Node.find (fun n => n.node_value == "Gainers & Losers") row).isSome
    · rw [if_pos hh] at h
      exact ih v now w h r hr
    · rw [if_neg hh] at h
      rw [Outcome.bind_eq_ok] at h
      obtain ⟨rec, hrec, h⟩ := h
      rcases ih (v ++ [rec]) now w h r hr with hv | hd
      · rcases List.mem_append.mp hv with hv | hv
        · exact Or.inl hv
        · simp only [List.mem_singleton] at hv
          exact Or.inr (hv ▸ extractRow_date hrec)
      · exact Or.inr hd

theorem processGainerRows_noHeader_length :
    ∀ (rows : List Node) (v : List AfterMarketPriceData) (now : DateTime)
      (w : List AfterMarketPriceData),
      (∀ row ∈ rows,
        Node.find (fun n => n.node_value == "Gainers & Losers") row = none) →
      processGainerRows v rows now = .ok w →
      w.length = v.length + rows.length := by
  intro rows
  induction rows with
  | nil =>
    intro v now w _ h
    simp only [processGainerRows, Outcome.ok.injEq] at h
    simp [← h]
  | cons row rest ih =>
    intro v now w hnh h
    simp only [processGainerRows] at h
    have hrow := hnh row (List.mem_cons_self row rest)
    rw [hrow] at h
    simp only [Option.isSome_none, Bool.false_eq_true, if_false] at h
    rw [Outcome.bind_eq_ok] at h
    obtain ⟨rec, hrec, h⟩ := h
    have := ih (v ++ [rec]) now w
      (fun r hr => hnh r (List.mem_cons_of_mem row hr)) h
    simp only [List.length_append, List.length_cons, List.length_nil] at this ⊢
    omega

theorem sp_ticker_shape {v : List AfterMarketPriceData} {node : Node}
    {now : DateTime} {w : List AfterMarketPriceData}
    (h : get_standard_and_poors_ticker_data v node now = .ok w) :
    ∃ q, w = v ++ [⟨"S&P", q, now⟩] := by
  unfold get_standard_and_poors_ticker_data at h
  rw [Outcome.bind_eq_ok] at h; obtain ⟨sp_row, hrow, h⟩ := h
  rw [Outcome.bind_eq_ok] at h; obtain ⟨spc, hspc, h⟩ := h
  split at h
  · cases h
  · rw [Outcome.bind_eq_ok] at h
    obtain ⟨q, hq, h⟩ := h
    simp only [Outcome.ok.injEq] at h
    exact ⟨q, h.symm⟩

/-- Spec-side: whether a character list matches the unsigned part of the
spec regex, digits then optionally a dot and digits, then a final
percent sign. -/
def matchesPctBody (cs : List Char) : Bool :=
  let ds := cs.takeWhile Char.isDigit
  let rest := cs.dropWhile Char.isDigit
  if ds.isEmpty then false
  else
    match rest with
    | ['%'] => true
    | '.' :: rest2 =>
      let fs := rest2.takeWhile Char.isDigit
      let rest3 := rest2.dropWhile Char.isDigit
      !fs.isEmpty && rest3 == ['%']
    | _ => false

/-- Spec-side: whether a string matches the spec regex for well-formed
percentage strings, an optional sign, digits, an optional dot and
digits, and a final percent sign. -/
def matchesPct (s : String) : Bool :=
  matchesPctBody (signOf s.toList).2

/-- Spec-side: the standard value of an unsigned decimal literal. -/
def unsignedDecimalValue (cs : List Char) : ℚ :=
  let ds := cs.takeWhile Char.isDigit
  let rest := cs.dropWhile Char.isDigit
  match rest with
  | '.' :: fs => (digitsToNat ds : ℚ) + (digitsToNat fs : ℚ) / (10 : ℚ) ^ fs.length
  | _ => (digitsToNat ds : ℚ)

/-- Spec-side: the standard value of a signed decimal literal, magnitude
with the sign applied. -/
def decimalValue (cs : List Char) : ℚ :=
  (signOf cs).1 * unsignedDecimalValue (signOf cs).2

theorem takeWhile_of_all {p : Char → Bool} :
    ∀ {cs : List Char}, cs.all p = true →
      cs.takeWhile p = cs ∧ cs.dropWhile p = [] := by
  intro cs
  induction cs with
  | nil => intro _; exact ⟨rfl, rfl⟩
  | cons c cs ih =>
    intro h
    rw [List.all_cons, Bool.and_eq_true] at h
    obtain ⟨hih1, hih2⟩ := ih h.2
    refine ⟨?_, ?_⟩
    · rw [List.takeWhile_cons, h.1]
      simp [hih1]
    · rw [List.dropWhile_cons, h.1]
      simpa using hih2

theorem takeWhile_append_stop {p : Char → Bool} :
    ∀ (ds : List Char), ds.all p = true → ∀ {c : Char}, p c = false →
      ∀ (t : List Char),
        (ds ++ c :: t).takeWhile p = ds ∧ (ds ++ c :: t).dropWhile p = c :: t := by
  intro ds
  induction ds with
  | nil =>
    intro _ c hc t
    simp [List.takeWhile_cons, List.dropWhile_cons, hc]
  | cons d ds ih =>
    intro h c hc t
    rw [List.all_cons, Bool.and_eq_true] at h
    obtain ⟨h1, h2⟩ := ih h.2 hc t
    refine ⟨?_, ?_⟩
    · rw [List.cons_append, List.takeWhile_cons, h.1]
      simp [h1]
    · rw [List.cons_append, List.dropWhile_cons, h.1]
      simpa using h2

theorem all_takeWhile_sat {p : Char → Bool} :
    ∀ cs : List Char, (cs.takeWhile p).all p = true := by
  intro cs
  induction cs with
  | nil => rfl
  | cons c cs ih =>
    rw [List.takeWhile_cons]
    by_cases hc : p c = true
    · simp [hc, ih]
    · simp [Bool.not_eq_true] at hc
      simp [hc]

theorem dropLast_cons_ne {α : Type} (a : α) (l : List α) (h : l ≠ []) :
    (a :: l).dropLast = a :: l.dropLast := by
  cases l with
  | nil => exact absurd rfl h
  | cons b bs => rfl

theorem dropLast_append_singleton {α : Type} (l : List α) (a : α) :
    (l ++ [a]).dropLast = l := by
  induction l with
  | nil => rfl
  | cons b bs ih =>
    rw [List.cons_append, dropLast_cons_ne _ _ (by simp), ih]

theorem getLast?_cons_ne {α : Type} (a : α) (l : List α) (h : l ≠ []) :
    (a :: l).getLast? = l.getLast? := by
  cases l with
  | nil => exact absurd rfl h
  | cons b bs => exact List.getLast?_cons_cons

theorem pct_utf8Size_one : ('%' : Char).utf8Size = 1 := by decide

theorem isEmpty_false_of_ne_nil {α : Type} {l : List α} (h : l ≠ []) :
    l.isEmpty = false := by
  cases l with
  | nil => exact absurd rfl h
  | cons a t => rfl

theorem parseUnsigned_int {ds : List Char} (h1 : ds.all Char.isDigit = true)
    (h2 : ds ≠ []) :
    parseUnsigned ds = some (digitsToNat ds : ℚ) ∧
      unsignedDecimalValue ds = (digitsToNat ds : ℚ) := by
  obtain ⟨htw, hdw⟩ := takeWhile_of_all h1
  constructor
  · simp only [parseUnsigned, htw, hdw, isEmpty_false_of_ne_nil h2]
    simp
  · simp only [unsignedDecimalValue, htw, hdw]

theorem parseUnsigned_frac {ds fs : List Char}
    (h1 : ds.all Char.isDigit = true) (h2 : fs.all Char.isDigit = true)
    (h3 : ds ≠ []) :
    parseUnsigned (ds ++ '.' :: fs) =
        some ((digitsToNat ds : ℚ) + (digitsToNat fs : ℚ) / (10 : ℚ) ^ fs.length) ∧
      unsignedDecimalValue (ds ++ '.' :: fs) =
        (digitsToNat ds : ℚ) + (digitsToNat fs : ℚ) / (10 : ℚ) ^ fs.length := by
  have hdot : Char.isDigit '.' = false := by decide
  obtain ⟨htw, hdw⟩ := takeWhile_append_stop ds h1 hdot fs
  constructor
  · simp only [parseUnsigned, htw, hdw, h2, isEmpty_false_of_ne_nil h3]
    simp
  · simp only [unsignedDecimalValue, htw, hdw]

theorem matchesPctBody_cases {r : List Char} (h : matchesPctBody r = true) :
    ∃ ds : List Char, ds.all Char.isDigit = true ∧ ds ≠ [] ∧
      (r = ds ++ ['%'] ∨
        ∃ fs : List Char, fs.all Char.isDigit = true ∧ fs ≠ [] ∧
          r = ds ++ '.' :: (fs ++ ['%'])) := by
  have hsplit : r.takeWhile Char.isDigit ++ r.dropWhile Char.isDigit = r :=
    List.takeWhile_append_dropWhile _ _
  simp only [matchesPctBody] at h
  by_cases h0 : (r.takeWhile Char.isDigit).isEmpty
  · rw [if_pos h0] at h
    cases h
  · rw [if_neg h0] at h
    refine ⟨r.takeWhile Char.isDigit, all_takeWhile_sat r, ?_, ?_⟩
    · intro hnil
      rw [hnil] at h0
      exact h0 rfl
    · split at h
      · rename_i hrest
        rw [hrest] at hsplit
        exact Or.inl hsplit.symm
      · rename_i rest2 hrest
        rw [Bool.and_eq_true, Bool.not_eq_true'] at h
        obtain ⟨hfs, hr3⟩ := h
        have hr3 : rest2.dropWhile Char.isDigit = ['%'] := eq_of_beq hr3
        have hsplit2 :
            rest2.takeWhile Char.isDigit ++ rest2.dropWhile Char.isDigit = rest2 :=
          List.takeWhile_append_dropWhile _ _
        rw [hr3] at hsplit2
        refine Or.inr ⟨rest2.takeWhile Char.isDigit, all_takeWhile_sat rest2, ?_, ?_⟩
        · intro hnil
          rw [hnil] at hfs
          simp at hfs
        · rw [hsplit2, ← hrest, hsplit]
      · cases h

theorem matchesPctBody_parse {r : List Char} (h : matchesPctBody r = true) :
    2 ≤ r.length ∧ r.getLast? = some '%' ∧
      parseUnsigned r.dropLast = some (unsignedDecimalValue r.dropLast) := by
  obtain ⟨ds, hds, hdne, hcase⟩ := matchesPctBody_cases h
  have hdslen : 1 ≤ ds.length := List.length_pos.mpr hdne
  rcases hcase with hr | ⟨fs, hfs, hfne, hr⟩
  · have hdl : r.dropLast = ds := by
      rw [hr]; exact dropLast_append_singleton ds '%'
    obtain ⟨hp, hv⟩ := parseUnsigned_int hds hdne
    refine ⟨?_, ?_, ?_⟩
    · rw [hr]; simp; omega
    · rw [hr]; exact List.getLast?_concat _
    · rw [hdl, hp, hv]
  · have hassoc : ds ++ '.' :: (fs ++ ['%']) = (ds ++ '.' :: fs) ++ ['%'] := by
      simp
    have hdl : r.dropLast = ds ++ '.' :: fs := by
      rw [hr, hassoc]; exact dropLast_append_singleton _ '%'
    obtain ⟨hp, hv⟩ := parseUnsigned_frac hds hfs hdne
    refine ⟨?_, ?_, ?_⟩
    · rw [hr]; simp; omega
    · rw [hr, hassoc]; exact List.getLast?_concat _
    · rw [hdl, hp, hv]

/-- Claim C4: for every input string matching the spec regex for signed
percentage strings, the percentage parser succeeds and returns the value
of the signed decimal literal obtained by stripping only the trailing
percent character, keeping any leading sign. -/
theorem C4_parse_wellformed_percentage (s : String) (h : matchesPct s = true) :
    parse_percentage_str s = .ok (decimalValue s.toList.dropLast) := by
  unfold matchesPct at h
  rcases hcs : s.toList with _ | ⟨c, r⟩
  · rw [hcs] at h
    simp [signOf, matchesPctBody] at h
  · rw [hcs] at h
    have hdata : s.data = c :: r := hcs
    by_cases hp : c = '+'
    · subst hp
      have hsign : signOf ('+' :: r) = (1, r) := by simp [signOf]
      rw [hsign] at h
      have h2 : matchesPctBody r = true := h
      obtain ⟨hlen, hpl, hpu⟩ := matchesPctBody_parse h2
      have hrne : r ≠ [] := by
        cases r
        · simp at hlen
        · simp
      have hlast : ('+' :: r).getLast? = some '%' := by
        rw [getLast?_cons_ne _ _ hrne]; exact hpl
      have hdl : ('+' :: r).dropLast = '+' :: r.dropLast :=
        dropLast_cons_ne _ _ hrne
      have hsign2 : signOf ('+' :: r.dropLast) = (1, r.dropLast) := by
        simp [signOf]
      simp [parse_percentage_str, hcs, hdata, hlast, pct_utf8Size_one, hdl,
        rustParseF64, hsign2, hpu, decimalValue]
    · by_cases hm : c = '-'
      · subst hm
        have hsign : signOf ('-' :: r) = (-1, r) := by simp [signOf]
        rw [hsign] at h
        have h2 : matchesPctBody r = true := h
        obtain ⟨hlen, hpl, hpu⟩ := matchesPctBody_parse h2
        have hrne : r ≠ [] := by
          cases r
          · simp at hlen
          · simp
        have hlast : ('-' :: r).getLast? = some '%' := by
          rw [getLast?_cons_ne _ _ hrne]; exact hpl
        have hdl : ('-' :: r).dropLast = '-' :: r.dropLast :=
          dropLast_cons_ne _ _ hrne
        have hsign2 : signOf ('-' :: r.dropLast) = (-1, r.dropLast) := by
          simp [signOf]
        simp [parse_percentage_str, hcs, hdata, hlast, pct_utf8Size_one, hdl,
          rustParseF64, hsign2, hpu, decimalValue]
      · have hsign : signOf (c :: r) = (1, c :: r) := by
          simp [signOf, hp, hm]
        rw [hsign] at h
        have h2 : matchesPctBody (c :: r) = true := h
        obtain ⟨hlen, hpl, hpu⟩ := matchesPctBody_parse h2
        have hrne : r ≠ [] := by
          cases r
          · simp at hlen
          · simp
        have hlast : (c :: r).getLast? = some '%' := hpl
        have hdl : (c :: r).dropLast = c :: r.dropLast :=
          dropLast_cons_ne _ _ hrne
        rw [hdl] at hpu
        have hsign2 : signOf (c :: r.dropLast) = (1, c :: r.dropLast) := by
          simp [signOf, hp, hm]
        simp [parse_percentage_str, hcs, hdata, hlast, pct_utf8Size_one, hdl,
          rustParseF64, hsign2, hpu, decimalValue]

unseal Rat.mul Rat.inv Rat.add Rat.sub in
/-- Claim C1: the spec says the extractor emits records only for the
gainer rows preceding the first negChangePct row and stops there.  The
code instead records the loser row with its negative percentage and
keeps going: on the synthetic table of the spec test the output is all
four data rows, not the claimed first two. -/
theorem C1_code_records_losers_and_continues :
    get_after_market_ticker_data [] syntheticContainer 0 =
      .ok [⟨"AAPL", 123/100, 0⟩, ⟨"MSFT", 1/2, 0⟩,
           ⟨"TSLA", -2, 0⟩, ⟨"GOOG", 3, 0⟩] := by
  decide

unseal Rat.mul Rat.inv Rat.add Rat.sub in
/-- Claim C2 counterexample: the string 5.0 without a trailing percent
character parses successfully (the unconditional removal of the final
character leaves 5. which is a valid float literal), contradicting the
claim that it fails. -/
theorem C2_counterexample_five_succeeds :
    parse_percentage_str "5.0" = .ok 5 := by
  decide

unseal Rat.mul Rat.inv Rat.add Rat.sub in
/-- Claim C2 as amended: on abc the parser returns the single
ParseFloatError (there is no Empty and InvalidNumber distinction in the
code), on the empty string it panics on the index underflow rather than
returning an error, and on 5.0 it succeeds with 5. -/
theorem C2_parser_malformed_behavior :
    parse_percentage_str "abc" = .err ParseFloatError.invalid ∧
    parse_percentage_str "" = .abort "attempt to subtract with overflow" ∧
    parse_percentage_str "5.0" = .ok 5 := by
  refine ⟨by decide, by decide, by decide⟩

/-- Claim C3 counterexample: on a table whose only data row lacks the
wsod_firstCol column the extraction panics (terminating the process)
instead of returning a recoverable MissingField error. -/
theorem C3_counterexample_missing_firstCol_panics :
    get_after_market_ticker_data [] containerMissingFirstCol 0 =
      .abort "could not find wsod_firstCol" := by
  decide

/-- Claim C3 as amended: a non-header row lacking the wsod_firstCol
column, or whose wsod_firstCol column lacks a text node, makes the whole
run abort with a panic: no records are produced, but the failure is a
process termination rather than a recoverable error value. -/
theorem C3_missing_structure_panics :
    (∀ (v : List AfterMarketPriceData) (row : Node) (rest : List Node)
       (now : DateTime),
      Node.find (fun n => n.node_value == "Gainers & Losers") row = none →
      get_node_with_class_as_option row "wsod_firstCol" = none →
      processGainerRows v (row :: rest) now =
        .abort "could not find wsod_firstCol")
    ∧
    (∀ (v : List AfterMarketPriceData) (row : Node) (rest : List Node)
       (now : DateTime) (fc : Node),
      Node.find (fun n => n.node_value == "Gainers & Losers") row = none →
      get_node_with_class_as_option row "wsod_firstCol" = some fc →
      Node.find (fun n => n.node_name == "#text") fc = none →
      processGainerRows v (row :: rest) now =
        .abort "could not find #text tag") := by
  constructor
  · intro v row rest now h1 h2
    simp only [processGainerRows, h1, Option.isSome_none, Bool.false_eq_true,
      if_false]
    simp [extractRow, get_node_with_class, h2, Outcome.bind]
  · intro v row rest now fc h1 h2 h3
    simp only [processGainerRows, h1, Option.isSome_none, Bool.false_eq_true,
      if_false]
    simp [extractRow, get_node_with_class, get_node_with_name, h2, h3,
      Outcome.bind]

theorem C3_missing_structure_panics_witness :
    Node.find (fun n => n.node_value == "Gainers & Losers")
        rowMissingFirstCol = none ∧
    get_node_with_class_as_option rowMissingFirstCol "wsod_firstCol" = none ∧
    processGainerRows [] [rowMissingFirstCol] 0 =
      .abort "could not find wsod_firstCol" ∧
    Node.find (fun n => n.node_value == "Gainers & Losers")
        rowFirstColNoText = none ∧
    get_node_with_class_as_option rowFirstColNoText "wsod_firstCol" =
      some (.mk "TD" "" [("class", "wsod_firstCol")] .nil) ∧
    Node.find (fun n => n.node_name == "#text")
        (Node.mk "TD" "" [("class", "wsod_firstCol")] .nil) = none ∧
    processGainerRows [] [rowFirstColNoText] 0 =
      .abort "could not find #text tag" :=
  ⟨rfl, rfl,
    C3_missing_structure_panics.1 [] rowMissingFirstCol [] 0 rfl rfl,
    rfl, rfl, rfl,
    C3_missing_structure_panics.2 [] rowFirstColNoText [] 0
      (.mk "TD" "" [("class", "wsod_firstCol")] .nil) rfl rfl rfl⟩

unseal Rat.mul Rat.inv Rat.add Rat.sub in
/-- Claim C7: on the S&P fragment whose compound-classed quote row
contains the bold right-aligned cell whose first percent-containing text
is -0.71 percent, the extractor produces exactly one record with symbol
S&P and percentage -0.71, found by the free-text percent search. -/
theorem C7_sp_snapshot_concrete :
    get_standard_and_poors_ticker_data [] spFragment 0 =
      .ok [⟨"S&P", -(71/100), 0⟩] := by
  decide

/-- Claim C5: for every successful run, the assembled batch is the mover
records in extracted order followed by one trailing S&P record, its
length is the mover count plus one, and every record carries the single
run timestamp. -/
theorem C5_assembled_batch_shape (moversNode spNode : Node) (now : DateTime)
    (movers w : List AfterMarketPriceData)
    (h1 : get_after_market_ticker_data [] moversNode now = .ok movers)
    (h2 : scrape_cnn_after_market_datasource moversNode spNode now = .ok w) :
    ∃ q, w = movers ++ [⟨"S&P", q, now⟩] ∧
      w.length = movers.length + 1 ∧
      ∀ r ∈ w, r.date = now := by
  unfold scrape_cnn_after_market_datasource at h2
  rw [h1] at h2
  have h2 : get_standard_and_poors_ticker_data movers spNode now = .ok w := h2
  obtain ⟨q, hw⟩ := sp_ticker_shape h2
  refine ⟨q, hw, ?_, ?_⟩
  · rw [hw]
    simp
  · intro r hr
    rw [hw] at hr
    rcases List.mem_append.mp hr with hm | hs
    · unfold get_after_market_ticker_data at h1
      rw [Outcome.bind_eq_ok] at h1
      obtain ⟨table, htab, h1⟩ := h1
      rcases processGainerRows_dates _ [] now movers h1 r hm with hv | hd
      · simp at hv
      · exact hd
    · simp only [List.mem_singleton] at hs
      rw [hs]

def moversExpected : List AfterMarketPriceData :=
  [⟨"AAPL", 123/100, 0⟩, ⟨"MSFT", 1/2, 0⟩, ⟨"TSLA", -2, 0⟩, ⟨"GOOG", 3, 0⟩]

def batchExpected : List AfterMarketPriceData :=
  moversExpected ++ [⟨"S&P", -(71/100), 0⟩]

unseal Rat.mul Rat.inv Rat.add Rat.sub in
theorem C5_assembled_batch_shape_witness :
    get_after_market_ticker_data [] syntheticContainer 0 = .ok moversExpected ∧
    scrape_cnn_after_market_datasource syntheticContainer spFragment 0 =
      .ok batchExpected ∧
    (∃ q, batchExpected = moversExpected ++ [⟨"S&P", q, 0⟩] ∧
      batchExpected.length = moversExpected.length + 1 ∧
      ∀ r ∈ batchExpected, r.date = 0) :=
  ⟨by decide, by decide,
    C5_assembled_batch_shape syntheticContainer spFragment 0 _ _
      (by decide) (by decide)⟩

/-- Claim C6: a row containing a descendant text node whose value is the
header caption is skipped, processing continuing with the next row; and
when no row contains the caption, every row is processed without
skipping, so a successful run emits exactly one record per row. -/
theorem C6_header_skip_policy :
    (∀ (v : List AfterMarketPriceData) (row : Node) (rest : List Node)
       (now : DateTime),
      Node.anyNode
        (fun m => m.node_name == "#text" && m.node_value == "Gainers & Losers")
        row = true →
      processGainerRows v (row :: rest) now = processGainerRows v rest now)
    ∧
    (∀ (v : List AfterMarketPriceData) (rows : List Node) (now : DateTime)
       (w : List AfterMarketPriceData),
      (∀ row ∈ rows,
        Node.find (fun n => n.node_value == "Gainers & Losers") row = none) →
      processGainerRows v rows now = .ok w →
      w.length = v.length + rows.length) := by
  constructor
  · intro v row rest now h
    have h2 : Node.anyNode (fun n => n.node_value == "Gainers & Losers") row
        = true := by
      refine Node.anyNode_mono _ _ ?_ row h
      intro m hm
      rw [Bool.and_eq_true] at hm
      exact hm.2
    have h3 : (Node.find (fun n => n.node_value == "Gainers & Losers")
        row).isSome = true := by
      rw [Node.find_isSome_eq_anyNode]
      exact h2
    simp only [processGainerRows, h3, if_true]
  · intro v rows now w h1 h2
    exact processGainerRows_noHeader_length rows v now w h1 h2

unseal Rat.mul Rat.inv Rat.add Rat.sub in
theorem C6_header_skip_policy_witness :
    Node.anyNode
      (fun m => m.node_name == "#text" && m.node_value == "Gainers & Losers")
      headerRow = true ∧
    processGainerRows [] [headerRow, gainerRow "AAPL" "+1.23%"] 0 =
      processGainerRows [] [gainerRow "AAPL" "+1.23%"] 0 ∧
    (∀ row ∈ [gainerRow "AAPL" "+1.23%"],
      Node.find (fun n => n.node_value == "Gainers & Losers") row = none) ∧
    processGainerRows [] [gainerRow "AAPL" "+1.23%"] 0 =
      .ok [⟨"AAPL", 123/100, 0⟩] ∧
    ([⟨"AAPL", (123 : ℚ)/100, 0⟩] : List AfterMarketPriceData).length =
      ([] : List AfterMarketPriceData).length +
        [gainerRow "AAPL" "+1.23%"].length :=
  ⟨rfl,
    C6_header_skip_policy.1 [] headerRow [gainerRow "AAPL" "+1.23%"] 0 rfl,
    fun row hr => by
      rcases List.mem_singleton.mp hr with rfl
      rfl,
    by decide,
    C6_header_skip_policy.2 [] [gainerRow "AAPL" "+1.23%"] 0
      [⟨"AAPL", 123/100, 0⟩]
      (fun row hr => by
        rcases List.mem_singleton.mp hr with rfl
        rfl)
      (by decide)⟩

unseal Rat.mul Rat.inv Rat.add Rat.sub in
/-- Claim C8 counterexample: the all-but-last-character prefix of the
string 5.0 followed by a euro sign is the valid float literal 5.0, yet
the parser does not succeed: the euro sign occupies three bytes, the
byte index len - 1 is not a character boundary, and String::remove
panics. -/
theorem C8_counterexample_multibyte_final_panics :
    rustParseF64 "5.0".toList = some 5 ∧
    parse_percentage_str "5.0€" = .abort "byte index is not a char boundary" :=
  ⟨by decide, by decide⟩

unseal Rat.mul Rat.inv Rat.add Rat.sub in
/-- Claim C8 as amended: when the final character of the input occupies
a single byte, the parser removes it unconditionally, whatever that
character is, and parses the remainder as a decimal float literal, so
5.0 yields 5 (the prefix 5. is a valid literal) and 7.06x yields 7.06;
when the final character occupies more than one byte, the byte index
len - 1 is not a character boundary and String::remove panics. -/
theorem C8_single_byte_final_char_removed :
    (∀ (cs : List Char) (c : Char), c.utf8Size = 1 → ∀ (q : ℚ),
      rustParseF64 cs = some q →
      parse_percentage_str (String.mk (cs ++ [c])) = .ok q)
    ∧ (∀ (cs : List Char) (c : Char), c.utf8Size ≠ 1 →
      parse_percentage_str (String.mk (cs ++ [c])) =
        .abort "byte index is not a char boundary")
    ∧ parse_percentage_str "5.0" = .ok 5
    ∧ parse_percentage_str "7.06x" = .ok (706/100) := by
  refine ⟨?_, ?_, ?_, ?_⟩
  · intro cs c hsz q hq
    have hdata : (String.mk (cs ++ [c])).data = cs ++ [c] := rfl
    have hlast : (cs ++ [c]).getLast? = some c := List.getLast?_concat _
    simp only [parse_percentage_str, String.toList, hdata, hlast]
    simp [hsz, dropLast_append_singleton, hq]
  · intro cs c hsz
    have hdata : (String.mk (cs ++ [c])).data = cs ++ [c] := rfl
    have hlast : (cs ++ [c]).getLast? = some c := List.getLast?_concat _
    simp only [parse_percentage_str, String.toList, hdata, hlast]
    simp [hsz]
  · decide
  · decide

unseal Rat.mul Rat.inv Rat.add Rat.sub in
theorem C8_single_byte_final_char_removed_witness :
    ('0' : Char).utf8Size = 1 ∧
    rustParseF64 ['5', '.'] = some 5 ∧
    parse_percentage_str (String.mk (['5', '.'] ++ ['0'])) = .ok 5 ∧
    ('€' : Char).utf8Size ≠ 1 ∧
    parse_percentage_str (String.mk (['5', '.', '0'] ++ ['€'])) =
      .abort "byte index is not a char boundary" :=
  ⟨by decide, by decide,
    C8_single_byte_final_char_removed.1 ['5', '.'] '0' (by decide) 5
      (by decide),
    by decide,
    C8_single_byte_final_char_removed.2.1 ['5', '.', '0'] '€' (by decide)⟩

/-- The wsod_firstCol column of the C9 witness row. -/
def fcTSLA : Node :=
  .mk "TD" "" [("class", "wsod_firstCol")] (NodeList.ofList [textNode "TSLA"])

/-- The negChangePct column of the C9 witness row. -/
def ncTSLA : Node :=
  .mk "TD" "" [("class", "negChangePct")] (NodeList.ofList [textNode "-2.00%"])

/-- The posChangePct column of the C9 witness row. -/
def posTSLA : Node :=
  .mk "TD" "" [("class", "posChangePct")] (NodeList.ofList [textNode "+9.99%"])

/-- A loser row carrying both a negChangePct and a posChangePct column,
to exhibit the precedence of the negative column. -/
def loserRowBoth : Node :=
  .mk "TR" "" [] (NodeList.ofList [fcTSLA, ncTSLA, posTSLA])

/-- Claim C9: for a non-header row with a negChangePct column, the
extractor uses the text of that column (taking precedence over any
posChangePct column, which the hypotheses never mention), emits the
record, and continues with the remaining rows. -/
theorem C9_negChangePct_precedence (v : List AfterMarketPriceData)
    (row : Node) (rest : List Node) (now : DateTime) (fc tn nc pn : Node)
    (q : ℚ)
    (h1 : Node.find (fun n => n.node_value == "Gainers & Losers") row = none)
    (h2 : get_node_with_class row "wsod_firstCol" = .ok fc)
    (h3 : get_node_with_name fc "#text" = .ok tn)
    (h4 : get_node_with_class_as_option row "negChangePct" = some nc)
    (h5 : get_node_with_name nc "#text" = .ok pn)
    (h6 : parse_percentage_str pn.node_value = .ok q) :
    processGainerRows v (row :: rest) now =
      processGainerRows (v ++ [⟨tn.node_value, q, now⟩]) rest now := by
  have hex : extractRow row now = .ok ⟨tn.node_value, q, now⟩ := by
    simp [extractRow, h2, h3, h4, h5, h6, Outcome.bind]
  simp only [processGainerRows, h1, Option.isSome_none, Bool.false_eq_true,
    if_false, hex, Outcome.bind]

unseal Rat.mul Rat.inv Rat.add Rat.sub in
theorem C9_negChangePct_precedence_witness :
    Node.find (fun n => n.node_value == "Gainers & Losers") loserRowBoth
      = none ∧
    get_node_with_class loserRowBoth "wsod_firstCol" = .ok fcTSLA ∧
    get_node_with_name fcTSLA "#text" = .ok (textNode "TSLA") ∧
    get_node_with_class_as_option loserRowBoth "negChangePct" = some ncTSLA ∧
    get_node_with_class_as_option loserRowBoth "posChangePct" = some posTSLA ∧
    get_node_with_name ncTSLA "#text" = .ok (textNode "-2.00%") ∧
    parse_percentage_str (textNode "-2.00%").node_value = .ok (-2) ∧
    processGainerRows [] [loserRowBoth] 0 =
      processGainerRows [⟨"TSLA", -2, 0⟩] [] 0 := by
  refine ⟨rfl, rfl, rfl, rfl, rfl, rfl, by decide, ?_⟩
  have h := C9_negChangePct_precedence [] loserRowBoth [] 0 fcTSLA
    (textNode "TSLA") ncTSLA (textNode "-2.00%") (-2)
    rfl rfl rfl rfl rfl (by decide)
  simpa [textNode, Node.node_value] using h

/-- Claim C10: both extractor functions only append to the accumulator
they receive: on success the returned vector extends the input vector,
which appears unchanged as a prefix. -/
theorem C10_extractors_append_only (v : List AfterMarketPriceData)
    (node : Node) (now : DateTime) (w : List AfterMarketPriceData) :
    (get_after_market_ticker_data v node now = .ok w → ∃ u, w = v ++ u)
    ∧
    (get_standard_and_poors_ticker_data v node now = .ok w →
      ∃ u, w = v ++ u) := by
  constructor
  · intro h
    unfold get_after_market_ticker_data at h
    rw [Outcome.bind_eq_ok] at h
    obtain ⟨table, htab, h⟩ := h
    exact processGainerRows_appendOnly _ v now w h
  · intro h
    obtain ⟨q, hw⟩ := sp_ticker_shape h
    exact ⟨[⟨"S&P", q, now⟩], hw⟩

unseal Rat.mul Rat.inv Rat.add Rat.sub in
theorem C10_extractors_append_only_witness :
    get_after_market_ticker_data [⟨"SEED", 1, 0⟩] syntheticContainer 0 =
      .ok ([⟨"SEED", 1, 0⟩] ++ moversExpected) ∧
    (∃ u, ([⟨"SEED", (1 : ℚ), 0⟩] : List AfterMarketPriceData) ++
        moversExpected = [⟨"SEED", 1, 0⟩] ++ u) ∧
    get_standard_and_poors_ticker_data [⟨"SEED", 1, 0⟩] spFragment 0 =
      .ok ([⟨"SEED", 1, 0⟩] ++ [⟨"S&P", -(71/100), 0⟩]) ∧
    (∃ u, ([⟨"SEED", (1 : ℚ), 0⟩] : List AfterMarketPriceData) ++
        [⟨"S&P", -(71/100), 0⟩] = [⟨"SEED", 1, 0⟩] ++ u) :=
  ⟨by decide,
    (C10_extractors_append_only [⟨"SEED", 1, 0⟩] syntheticContainer 0
      ([⟨"SEED", 1, 0⟩] ++ moversExpected)).1 (by decide),
    by decide,
    (C10_extractors_append_only [⟨"SEED", 1, 0⟩] spFragment 0
      ([⟨"SEED", 1, 0⟩] ++ [⟨"S&P", -(71/100), 0⟩])).2 (by decide)⟩

unseal Rat.mul Rat.inv Rat.add Rat.sub in
theorem C4_parse_wellformed_percentage_witness :
    matchesPct "+7.06%" = true ∧
    parse_percentage_str "+7.06%" =
      .ok (decimalValue "+7.06%".toList.dropLast) ∧
    decimalValue "+7.06%".toList.dropLast = 706/100 ∧
    matchesPct "-3.99%" = true ∧
    parse_percentage_str "-3.99%" =
      .ok (decimalValue "-3.99%".toList.dropLast) ∧
    decimalValue "-3.99%".toList.dropLast = -(399/100) :=
  ⟨by decide, C4_parse_wellformed_percentage "+7.06%" (by decide), by decide,
   by decide, C4_parse_wellformed_percentage "-3.99%" (by decide), by decide⟩
